import Mathlib

/-!
# Multi-store proof operator (`store/multistoreproof.go`)

A shallow embedding of the Go file `store/multistoreproof.go` and a verification of
its specification.

Conventions of the embedding.

* A Go `[]byte` is a `List UInt8`; a Go `string` is the list of its bytes (a Go string
  is an arbitrary byte sequence, and `string(b)` for `b : []byte` keeps the bytes).
* A Go function returning `(T, error)` returns an `Outcome T`: either the pair of an
  optional value (`none` is the `nil` of Go) and an optional error, or a run-time panic.
* Code that the file uses but does not define (the commit-info hash, the amino codec,
  the decoders of the other operator kinds) is taken as a parameter.
-/

namespace store

/-! ## Bytes and strings -/

/-- Go `[]byte`. -/
abbrev Bytes := List UInt8

/-- Go `string`: a sequence of bytes. -/
abbrev GoString := List UInt8

/-- The bytes of a string literal of the source (UTF-8, as the Go compiler stores it). -/
def lit (s : String) : GoString := s.data.flatMap String.utf8EncodeChar

/-- Go conversion `string(b)` of a byte slice: the same bytes. -/
def string (b : Bytes) : GoString := b

/-- Go `bytes.Equal`: the two slices have the same length and the same bytes. -/
def bytesEqual (a b : Bytes) : Bool := decide (a = b)

/-! ## The fragment of `fmt` used by the file -/

/-- An operand of a format call: the file passes strings and byte slices only. -/
inductive FmtArg where
  | str (s : GoString)
  | bytes (b : Bytes)
  deriving DecidableEq, Repr

/-- One upper-case hexadecimal digit, for a value below sixteen. -/
def hexDigitUpper (n : Nat) : UInt8 :=
  if n < 10 then (48 + n).toUInt8 else (55 + n).toUInt8

/-- Verb `%X` on a string or a byte slice: two upper-case hex digits per byte. -/
def fmtX (b : List UInt8) : GoString :=
  b.flatMap fun x => [hexDigitUpper (x.toNat / 16), hexDigitUpper (x.toNat % 16)]

/-- A natural number in decimal. -/
def fmtDec (n : Nat) : GoString := (Nat.toDigits 10 n).map fun c => c.toNat.toUInt8

/-- Verb `%v` on a byte slice: the decimal values of the bytes, separated by one space,
in square brackets, as in `[109 105]`. -/
def fmtBytesV (b : Bytes) : GoString :=
  lit "[" ++ (List.intercalate (lit " ") (b.map fun x => fmtDec x.toNat)) ++ lit "]"

/-- Verb `%v` on an operand. -/
def FmtArg.fmtV : FmtArg → GoString
  | .str s => s
  | .bytes b => fmtBytesV b

/-- Verb `%X` on an operand. -/
def FmtArg.fmtX : FmtArg → GoString
  | .str s => store.fmtX s
  | .bytes b => store.fmtX b

/-- An operand that no verb consumed, as `fmt` prints it: its type, `=`, its value. -/
def FmtArg.fmtExtra : FmtArg → GoString
  | .str s => lit "string=" ++ s
  | .bytes b => lit "[]uint8=" ++ fmtBytesV b

/-- The tail `fmt` appends when operands are left over. -/
def fmtExtras : List FmtArg → GoString
  | [] => []
  | a :: as =>
    lit "%!(EXTRA " ++ List.intercalate (lit ", ") ((a :: as).map FmtArg.fmtExtra) ++ lit ")"

/-- Go `fmt.Sprintf`, restricted to what the file uses: the verbs `%v` and `%X` without
flags, on string and byte-slice operands. A verb without operand prints `%!v(MISSING)`,
left-over operands print `%!(EXTRA ...)`, a trailing `%` prints `%!(NOVERB)`; a byte
other than `v` or `X` after `%` is outside the fragment and is copied through. -/
def Sprintf : GoString → List FmtArg → GoString
  | [], args => fmtExtras args
  | [c], args => if c = 37 then lit "%!(NOVERB)" ++ fmtExtras args else c :: fmtExtras args
  | c :: d :: rest, args =>
    if c = 37 ∧ (d = 118 ∨ d = 88) then
      match args with
      | [] => lit "%!" ++ [d] ++ lit "(MISSING)" ++ Sprintf rest []
      | a :: as => (if d = 118 then a.fmtV else a.fmtX) ++ Sprintf rest as
    else c :: Sprintf (d :: rest) args

end store

/-! ## Errors of `libs/common` -/

namespace cmn

open store

/-- Go `error` values as the file creates them. -/
inductive Error where
  -- the value of `cmn.NewError(format, args...)`: a format and its operands
  | fmt (format : GoString) (args : List FmtArg)
  -- the value of `cmn.ErrorWrap(cause, format)`
  | wrap (cause : Error) (format : GoString)
  -- an error value made outside this file (by the codec)
  | foreign (msg : GoString)
  deriving DecidableEq, Repr

/-- Go `cmn.NewError`. -/
def NewError (format : GoString) (args : List FmtArg) : Error := .fmt format args

/-- Go `cmn.ErrorWrap`. -/
def ErrorWrap (cause : Error) (format : GoString) : Error := .wrap cause format

end cmn

namespace store

/-- What a call of a Go function with results `(T, error)` does: it returns the pair
(`none` stands for `nil`), or it panics. -/
inductive Outcome (α : Type) where
  | returned (val : Option α) (err : Option cmn.Error)
  | panicked
  deriving DecidableEq, Repr

/-! ## Data model

The declarations of `storeInfo`, `storeCore`, `CommitID` and `commitInfo` are in
`store/rootmultistore.go` and `store/types.go`; the structures below have the fields
that `multistoreproof.go` reads and writes. -/

/-- Modelled from the spec: the type `CommitID` is declared outside
`multistoreproof.go`; the field this file reads is `Hash`, the committed root hash of
one sub-store. -/
structure CommitID where
  Hash : Bytes
  deriving DecidableEq, Repr

/-- Modelled from the spec: the type `storeCore` is declared outside
`multistoreproof.go`; this file reads `Core.CommitID`. -/
structure storeCore where
  CommitID : CommitID
  deriving DecidableEq, Repr

/-- Modelled from the spec: the type `storeInfo` is declared outside
`multistoreproof.go`: the name of a sub-store and its commitment. -/
structure storeInfo where
  Name : GoString
  Core : storeCore
  deriving DecidableEq, Repr

/-- Modelled from the spec: the type `commitInfo` is declared outside
`multistoreproof.go`: a version (an `int64`) and the ordered store infos. -/
structure commitInfo where
  Version : Int
  StoreInfos : List storeInfo
  deriving DecidableEq, Repr

/-- Go `MultiStoreProof`: a collection of store proofs in a multi-store. -/
structure MultiStoreProof where
  StoreInfos : List storeInfo
  deriving DecidableEq, Repr

/-- Go `NewMultiStoreProof`. -/
def NewMultiStoreProof (storeInfos : List storeInfo) : MultiStoreProof :=
  { StoreInfos := storeInfos }

/-- Go `(*MultiStoreProof).ComputeRootHash`, on a receiver that is not `nil`. The
method `commitInfo.Hash` is not defined in this file: it is the parameter `ciHash`. -/
def MultiStoreProof.ComputeRootHash (ciHash : commitInfo → Bytes)
    (proof : MultiStoreProof) : Bytes :=
  let ci : commitInfo := { Version := -1, StoreInfos := proof.StoreInfos }
  ciHash ci

/-- What a call of a Go function with one result does: it returns the value, or it
panics. -/
inductive Call (α : Type) where
  | value (a : α)
  | panicked
  deriving DecidableEq, Repr

/-- Go `(*MultiStoreProof).ComputeRootHash` as a call on its pointer receiver (`none`
is `nil`), with a commit-info hash `hashCall` that may itself panic. The read of
`proof.StoreInfos` panics on a `nil` receiver; the result is the result of `ci.Hash()`
on `{Version: -1, StoreInfos: proof.StoreInfos}`. -/
def MultiStoreProof.ComputeRootHashCall (hashCall : commitInfo → Call Bytes) :
    Option MultiStoreProof → Call Bytes
  | none => .panicked
  | some proof =>
    let ci : commitInfo := { Version := -1, StoreInfos := proof.StoreInfos }
    hashCall ci

/-- Go `RequireProof`: whether a proof is required for the subpath. -/
def RequireProof (subpath : GoString) : Bool :=
  if subpath = lit "/key" then true else false

/-! ## The operator -/

/-- Go `MultiStoreProofOp`. The field `Proof` is a pointer: `none` is `nil`. -/
structure MultiStoreProofOp where
  key : Bytes
  Proof : Option MultiStoreProof
  deriving DecidableEq, Repr

/-- Go constant `ProofOpMultiStoreProof`. -/
def ProofOpMultiStoreProof : GoString := lit "multistore"

/-- Go `NewMultiStoreProofOp`. -/
def NewMultiStoreProofOp (key : Bytes) (proof : Option MultiStoreProof) :
    MultiStoreProofOp :=
  { key := key, Proof := proof }

end store

namespace merkle

open store

/-- Go `merkle.ProofOp`, the encoded form of an operator: a type tag, a key and the
encoded payload. The field `Type` of the source is `Typ` here. -/
structure ProofOp where
  Typ : GoString
  Key : Bytes
  Data : Bytes
  deriving DecidableEq, Repr

/-- Go interface `merkle.ProofOperator`: the three methods of an operator. -/
structure ProofOperator where
  Run : List Bytes → Outcome (List Bytes)
  GetKey : Bytes
  ProofOp : ProofOp

/-- Go `merkle.OpDecoder`. -/
abbrev OpDecoder := ProofOp → Outcome ProofOperator

end merkle

namespace store

/-- The package variable `cdc` (the amino codec), defined outside this file, restricted
to the two calls the file makes on it. `MustMarshalBinaryLengthPrefixed` is taken as a
function of the operator; `UnmarshalBinaryLengthPrefixed` yields the decoded operator
or an error. -/
structure Codec where
  MustMarshalBinaryLengthPrefixed : MultiStoreProofOp → Bytes
  UnmarshalBinaryLengthPrefixed : Bytes → Except cmn.Error MultiStoreProofOp

/-- Go `MultiStoreProofOpDecoder`. The operator it returns is given with its concrete
type; `MultiStoreProofOp.toProofOperator` is its value as a `merkle.ProofOperator`. -/
def MultiStoreProofOpDecoder (cdc : Codec) (pop : merkle.ProofOp) :
    Outcome MultiStoreProofOp :=
  if pop.Typ ≠ ProofOpMultiStoreProof then
    .returned none (some (cmn.NewError (lit "unexpected ProofOp.Type; got %v, want %v")
      [.str pop.Typ, .str ProofOpMultiStoreProof]))
  else
    match cdc.UnmarshalBinaryLengthPrefixed pop.Data with
    | .error err =>
      .returned none (some (cmn.ErrorWrap err (lit "decoding ProofOp.Data into MultiStoreProofOp")))
    | .ok op => .returned (some (NewMultiStoreProofOp pop.Key op.Proof)) none

/-- Go `MultiStoreProofOp.ProofOp`. -/
def MultiStoreProofOp.ProofOp (cdc : Codec) (op : MultiStoreProofOp) : merkle.ProofOp :=
  let bz := cdc.MustMarshalBinaryLengthPrefixed op
  { Typ := ProofOpMultiStoreProof, Key := op.key, Data := bz }

/-- Go `MultiStoreProofOp.GetKey`. -/
def MultiStoreProofOp.GetKey (op : MultiStoreProofOp) : Bytes := op.key

/-- Go `MultiStoreProofOp.String`. -/
def MultiStoreProofOp.String (op : MultiStoreProofOp) : GoString :=
  Sprintf (lit "MultiStoreProofOp\x7b%v\x7d") [.bytes op.GetKey]

/-- The error of `Run` on an argument list that has not exactly one element. -/
def errValueSize : cmn.Error := cmn.NewError (lit "Value size is not 1") []

/-- The error of `Run` when the value differs from the commit hash of the sub-store. -/
def errHashMismatch (name : GoString) (hash value : Bytes) : cmn.Error :=
  cmn.NewError (lit "hash mismatch for substore %v: %X vs %X")
    [.str name, .bytes hash, .bytes value]

/-- The error of `Run` when no store info has the name of the key. -/
def errKeyNotFound (key : Bytes) : cmn.Error :=
  cmn.NewError (lit "key %v not found in multistore proof") [.bytes key]

/-- The loop of `MultiStoreProofOp.Run` over `op.Proof.StoreInfos`, with the statement
that follows it: the first store info named `string(key)` decides. -/
def MultiStoreProofOp.Run.loop (key value root : Bytes) :
    List storeInfo → Outcome (List Bytes)
  | [] => .returned none (some (errKeyNotFound key))
  | si :: rest =>
    if si.Name = string key then
      if bytesEqual value si.Core.CommitID.Hash then
        .returned (some [root]) none
      else
        .returned none (some (errHashMismatch si.Name si.Core.CommitID.Hash value))
    else MultiStoreProofOp.Run.loop key value root rest

/-- Go `MultiStoreProofOp.Run`. After the length check, `args[0]` is read (a panic when
out of range) and `op.Proof` is dereferenced (a panic when it is `nil`). -/
def MultiStoreProofOp.Run (ciHash : commitInfo → Bytes) (op : MultiStoreProofOp)
    (args : List Bytes) : Outcome (List Bytes) :=
  if args.length ≠ 1 then
    .returned none (some errValueSize)
  else
    match args[0]? with
    | none => .panicked
    | some value =>
      match op.Proof with
      | none => .panicked
      | some proof =>
        let root := proof.ComputeRootHash ciHash
        MultiStoreProofOp.Run.loop op.key value root proof.StoreInfos

/-- The operator as a value of the interface `merkle.ProofOperator`
(`var _ merkle.ProofOperator = MultiStoreProofOp{}` in the source). -/
def MultiStoreProofOp.toProofOperator (ciHash : commitInfo → Bytes) (cdc : Codec)
    (op : MultiStoreProofOp) : merkle.ProofOperator :=
  { Run := op.Run ciHash, GetKey := op.GetKey, ProofOp := op.ProofOp cdc }

end store

/-! ## The proof runtime -/

namespace merkle

open store

/-- Modelled from the spec: `merkle.ProofRuntime` is defined outside this file; it is
a registry of decoders keyed by the operator-type tag (a Go map: `none` for an absent
tag). -/
structure ProofRuntime where
  decoders : GoString → Option OpDecoder

/-- Modelled from the spec: `merkle.NewProofRuntime`, the runtime with an empty
registry. -/
def NewProofRuntime : ProofRuntime := { decoders := fun _ => none }

/-- Modelled from the spec: `RegisterOpDecoder` "adds/overwrites an entry in the
registry". -/
def ProofRuntime.RegisterOpDecoder (prt : ProofRuntime) (typ : GoString)
    (dec : OpDecoder) : ProofRuntime :=
  { decoders := fun t => if t = typ then some dec else prt.decoders t }

/-- The error of the runtime for a tag that has no decoder. -/
def errUnrecognized (typ : GoString) : cmn.Error :=
  cmn.NewError (lit "unrecognized proof type %v") [.str typ]

/-- Modelled from the spec: `decodeOperator` "looks up `tag` in the registry; fails
with `UnknownOperatorTypeError` if absent; otherwise delegates to the registered decode
function, propagating its failures". -/
def ProofRuntime.Decode (prt : ProofRuntime) (pop : ProofOp) : Outcome ProofOperator :=
  match prt.decoders pop.Typ with
  | none => .returned none (some (errUnrecognized pop.Typ))
  | some decoder => decoder pop

/-- Constant `merkle.ProofOpSimpleValue` of the library. -/
def ProofOpSimpleValue : GoString := lit "simple:v"

end merkle

namespace iavl

open store

/-- Constant `iavl.ProofOpIAVLValue` of the library. -/
def ProofOpIAVLValue : GoString := lit "iavl:v"

/-- Constant `iavl.ProofOpIAVLAbsence` of the library. -/
def ProofOpIAVLAbsence : GoString := lit "iavl:a"

end iavl

namespace store

/-- The decoders of the other operator kinds, defined in the libraries `merkle` and
`iavl`: they are parameters of the embedding. -/
structure LibDecoders where
  SimpleValueOpDecoder : merkle.OpDecoder
  IAVLValueOpDecoder : merkle.OpDecoder
  IAVLAbsenceOpDecoder : merkle.OpDecoder

/-- Go `DefaultProofRuntime`: a new runtime on which three decoders are registered. -/
def DefaultProofRuntime (lib : LibDecoders) : merkle.ProofRuntime :=
  let prt := merkle.NewProofRuntime
  let prt := prt.RegisterOpDecoder merkle.ProofOpSimpleValue lib.SimpleValueOpDecoder
  let prt := prt.RegisterOpDecoder iavl.ProofOpIAVLValue lib.IAVLValueOpDecoder
  let prt := prt.RegisterOpDecoder iavl.ProofOpIAVLAbsence lib.IAVLAbsenceOpDecoder
  prt

end store

/-! ## Chain verification -/

namespace merkle

open store

/-- Modelled from the spec: the failures of chain verification (the error kinds
`KeyMismatchError` and `RootMismatchError` of the specification, and a failure of the
`run` of an operator, which "propagates immediately"). The function that verifies a
chain is defined outside `multistoreproof.go`. -/
inductive ProofError where
  | KeyMismatchError (opKey : Bytes) (segment : Option Bytes)
  | RootMismatchError (expectedRoot : Bytes) (current : List Bytes)
  | RunError (err : cmn.Error)
  deriving DecidableEq, Repr

/-- Modelled from the spec: the result of `verifyValue`, "success or ProofError"; a
panic of an operator is a panic of the verification. -/
inductive VerifyResult where
  | success
  | failure (err : ProofError)
  | panicked
  deriving DecidableEq, Repr

/-- Modelled from the spec: steps 2 and 3 of `verifyValue`. "For each operator `op` in
`chain`, in order: verify `op.key()` equals the next unconsumed segment of
`requestedKeyPath` - fails with `KeyMismatchError` otherwise; `current =
op.run(current)`; any failure from `run` propagates immediately. After the final stage,
`current` must equal `[expectedRoot]` exactly - fails with `RootMismatchError`
otherwise." A `run` that returns neither output nor error leaves `current` empty. -/
def verifyValue.loop (expectedRoot : Bytes) :
    List ProofOperator → List Bytes → List Bytes → VerifyResult
  | [], _, current =>
    if current = [expectedRoot] then .success
    else .failure (.RootMismatchError expectedRoot current)
  | op :: _, [], _ => .failure (.KeyMismatchError op.GetKey none)
  | op :: rest, seg :: segs, current =>
    if op.GetKey ≠ seg then .failure (.KeyMismatchError op.GetKey (some seg))
    else
      match op.Run current with
      | .panicked => .panicked
      | .returned _ (some err) => .failure (.RunError err)
      | .returned val none => verifyValue.loop expectedRoot rest segs (val.getD [])

/-- Modelled from the spec: `verifyValue(chain, expectedRoot, requestedKeyPath,
leafValue)`, defined outside `multistoreproof.go`; step 1 is "let `current =
[leafValue]`". -/
def verifyValue (chain : List ProofOperator) (expectedRoot : Bytes)
    (requestedKeyPath : List Bytes) (leafValue : Bytes) : VerifyResult :=
  verifyValue.loop expectedRoot chain requestedKeyPath [leafValue]

/-- The chain runs from `current` to `out` along the key path: the key of every
operator is its segment of the key path, every `Run` returns without error on the
output of the stage before, and the output of the last stage is `out`. -/
def chainRuns : List ProofOperator → List Bytes → List Bytes → List Bytes → Prop
  | [], _, current, out => current = out
  | _ :: _, [], _, _ => False
  | op :: rest, seg :: segs, current, out =>
    op.GetKey = seg
      ∧ ∃ val, op.Run current = .returned val none ∧ chainRuns rest segs (val.getD []) out

end merkle

/-! ## Sample data

Concrete values on which the theorems below are instantiated. -/

namespace store

/-- A stand-in for `commitInfo.Hash` on the sample data: the names and the hashes of
the store infos, in list order. -/
def sampleHash (ci : commitInfo) : Bytes :=
  ci.StoreInfos.flatMap fun si => si.Name ++ si.Core.CommitID.Hash

/-- A store info from its name and its commit hash. -/
def mkStoreInfo (name : GoString) (hash : Bytes) : storeInfo :=
  { Name := name, Core := { CommitID := { Hash := hash } } }

/-- The proof of the example of the specification: `bank` with hash `H1 = [1, 2]` and
`acc` with hash `H2 = [3]`. -/
def bankAccProof : MultiStoreProof :=
  NewMultiStoreProof [mkStoreInfo (lit "bank") [1, 2], mkStoreInfo (lit "acc") [3]]

/-- A proof in which two store infos have the name `a`. -/
def twiceAProof : MultiStoreProof :=
  NewMultiStoreProof [mkStoreInfo (lit "a") [1], mkStoreInfo (lit "a") [2]]

/-- The sample proof with its store infos in the other order. -/
def accBankProof : MultiStoreProof :=
  NewMultiStoreProof [mkStoreInfo (lit "acc") [3], mkStoreInfo (lit "bank") [1, 2]]

/-- The proof with the name `a` twice, in the other order. -/
def twiceAProofRev : MultiStoreProof :=
  NewMultiStoreProof [mkStoreInfo (lit "a") [2], mkStoreInfo (lit "a") [1]]

/-- A stand-in for `commitInfo.Hash` that ignores the store infos. -/
def constHash (_ : commitInfo) : Bytes := [0]

/-- A sample operator of another kind, for the first stage of a chain: with key `key`,
it maps its one input `v` to `key ++ v`. -/
def sampleValueOp (key : Bytes) : merkle.ProofOperator :=
  { Run := fun args =>
      match args with
      | [v] => .returned (some [key ++ v]) none
      | _ => .returned none (some (.foreign (lit "one input expected"))),
    GetKey := key,
    ProofOp := { Typ := merkle.ProofOpSimpleValue, Key := key, Data := [] } }

/-! ### A sample codec

A self-delimiting encoding of the payload of an operator, on which the decoder is
evaluated. As with the amino codec, the unexported field `key` is not part of the
payload: decoding leaves it empty. -/

/-- A byte string in the sample encoding: every byte after the mark `1`, then the
mark `0`. -/
def sampleEncBytes : Bytes → Bytes
  | [] => [0]
  | x :: rest => 1 :: x :: sampleEncBytes rest

/-- Reads one byte string of the sample encoding; yields it with the rest of the
input. -/
def sampleDecBytes : Bytes → Option (Bytes × Bytes)
  | [] => none
  | t :: rest =>
    if t = 0 then some ([], rest)
    else
      match rest with
      | [] => none
      | x :: rest2 =>
        if t = 1 then
          match sampleDecBytes rest2 with
          | none => none
          | some (b, r) => some (x :: b, r)
        else none

/-- The store infos in the sample encoding: each one after the mark `2`, as its name
and its hash, then the mark `3`. -/
def sampleEncInfos : List storeInfo → Bytes
  | [] => [3]
  | si :: rest =>
    2 :: (sampleEncBytes si.Name ++ (sampleEncBytes si.Core.CommitID.Hash
      ++ sampleEncInfos rest))

/-- Reads the store infos of the sample encoding, at most `fuel` of them and the end
mark. -/
def sampleDecInfos : Nat → Bytes → Option (List storeInfo × Bytes)
  | 0, _ => none
  | _ + 1, [] => none
  | fuel + 1, t :: rest =>
    if t = 3 then some ([], rest)
    else if t = 2 then
      match sampleDecBytes rest with
      | none => none
      | some (name, r1) =>
        match sampleDecBytes r1 with
        | none => none
        | some (hash, r2) =>
          match sampleDecInfos fuel r2 with
          | none => none
          | some (infos, r3) => some (mkStoreInfo name hash :: infos, r3)
    else none

/-- The sample encoding of an operator: `0` for a `nil` proof, else `1` and the store
infos. -/
def sampleMarshal (op : MultiStoreProofOp) : Bytes :=
  match op.Proof with
  | none => [0]
  | some proof => 1 :: sampleEncInfos proof.StoreInfos

/-- The sample decoding; an input that is not an encoding is an error. -/
def sampleUnmarshal (data : Bytes) : Except cmn.Error MultiStoreProofOp :=
  match data with
  | [] => .error (.foreign (lit "empty payload"))
  | t :: rest =>
    if t = 0 then
      if rest = [] then .ok { key := [], Proof := none }
      else .error (.foreign (lit "trailing bytes"))
    else if t = 1 then
      match sampleDecInfos rest.length rest with
      | some (infos, []) => .ok { key := [], Proof := some { StoreInfos := infos } }
      | _ => .error (.foreign (lit "malformed store infos"))
    else .error (.foreign (lit "unknown mark"))

/-- The sample codec. -/
def sampleCodec : Codec :=
  { MustMarshalBinaryLengthPrefixed := sampleMarshal,
    UnmarshalBinaryLengthPrefixed := sampleUnmarshal }

/-- A sample codec whose decoded payload carries a key of its own: every payload
decodes to the operator with key `payload` and the sample proof. -/
def sampleKeyedCodec : Codec :=
  { MustMarshalBinaryLengthPrefixed := sampleMarshal,
    UnmarshalBinaryLengthPrefixed := fun _ =>
      .ok { key := lit "payload", Proof := some bankAccProof } }

/-- Sample decoders of the library operators: none of them decodes anything. -/
def sampleLib : LibDecoders :=
  { SimpleValueOpDecoder := fun _ => .returned none (some (.foreign (lit "simple value"))),
    IAVLValueOpDecoder := fun _ => .returned none (some (.foreign (lit "iavl value"))),
    IAVLAbsenceOpDecoder := fun _ => .returned none (some (.foreign (lit "iavl absence"))) }

end store

/-! ## Lemmas on `Run` -/

namespace store

theorem Run_of_length_ne (ciHash : commitInfo → Bytes) (op : MultiStoreProofOp)
    (args : List Bytes) (h : args.length ≠ 1) :
    op.Run ciHash args = .returned none (some errValueSize) := by
  simp [MultiStoreProofOp.Run, h]

theorem Run_singleton (ciHash : commitInfo → Bytes) (key v : Bytes)
    (proof : MultiStoreProof) :
    MultiStoreProofOp.Run ciHash { key := key, Proof := some proof } [v]
      = MultiStoreProofOp.Run.loop key v (proof.ComputeRootHash ciHash)
          proof.StoreInfos := by
  simp [MultiStoreProofOp.Run]

theorem Run_singleton_nil (ciHash : commitInfo → Bytes) (key v : Bytes) :
    MultiStoreProofOp.Run ciHash { key := key, Proof := none } [v] = .panicked := by
  simp [MultiStoreProofOp.Run]

/-- The loop is a search for the first store info named `string(key)`. -/
theorem loop_eq_find (key value root : Bytes) (infos : List storeInfo) :
    MultiStoreProofOp.Run.loop key value root infos
      = match infos.find? (fun si => decide (si.Name = string key)) with
        | none => .returned none (some (errKeyNotFound key))
        | some si =>
          if value = si.Core.CommitID.Hash then .returned (some [root]) none
          else .returned none (some (errHashMismatch si.Name si.Core.CommitID.Hash value)) := by
  induction infos with
  | nil => simp [MultiStoreProofOp.Run.loop]
  | cons si rest ih =>
    by_cases h : si.Name = string key
    · simp [MultiStoreProofOp.Run.loop, h, bytesEqual, List.find?]
    · simp [MultiStoreProofOp.Run.loop, h, List.find?, ih]

/-- Every outcome of `Run`, by cases on the arguments and on the search. -/
theorem Run_cases (ciHash : commitInfo → Bytes) (op : MultiStoreProofOp)
    (args : List Bytes) :
    (args.length ≠ 1 ∧ op.Run ciHash args = .returned none (some errValueSize))
    ∨ (∃ v, args = [v] ∧ op.Proof = none ∧ op.Run ciHash args = .panicked)
    ∨ (∃ v proof, args = [v] ∧ op.Proof = some proof
        ∧ (∀ si ∈ proof.StoreInfos, si.Name ≠ string op.key)
        ∧ op.Run ciHash args = .returned none (some (errKeyNotFound op.key)))
    ∨ (∃ v proof si, args = [v] ∧ op.Proof = some proof
        ∧ proof.StoreInfos.find? (fun si => decide (si.Name = string op.key)) = some si
        ∧ v = si.Core.CommitID.Hash
        ∧ op.Run ciHash args = .returned (some [proof.ComputeRootHash ciHash]) none)
    ∨ (∃ v proof si, args = [v] ∧ op.Proof = some proof
        ∧ proof.StoreInfos.find? (fun si => decide (si.Name = string op.key)) = some si
        ∧ v ≠ si.Core.CommitID.Hash
        ∧ op.Run ciHash args
            = .returned none (some (errHashMismatch si.Name si.Core.CommitID.Hash v))) := by
  by_cases hlen : args.length ≠ 1
  · exact Or.inl ⟨hlen, Run_of_length_ne ciHash op args hlen⟩
  · right
    obtain ⟨v, rfl⟩ : ∃ v, args = [v] := by
      match args, hlen with
      | [v], _ => exact ⟨v, rfl⟩
      | [], h => simp at h
      | _ :: _ :: _, h => simp at h
    obtain ⟨key, pr⟩ := op
    cases pr with
    | none => exact Or.inl ⟨v, rfl, rfl, Run_singleton_nil ciHash key v⟩
    | some proof =>
      right
      have hrun := Run_singleton ciHash key v proof
      rw [loop_eq_find] at hrun
      cases hfind : proof.StoreInfos.find? (fun si => decide (si.Name = string key)) with
      | none =>
        rw [hfind] at hrun
        refine Or.inl ⟨v, proof, rfl, rfl, ?_, hrun⟩
        intro si hsi
        have := List.find?_eq_none.mp hfind si hsi
        simpa using this
      | some si =>
        rw [hfind] at hrun
        right
        by_cases hv : v = si.Core.CommitID.Hash
        · exact Or.inl ⟨v, proof, si, rfl, rfl, hfind, hv, by simpa [hv] using hrun⟩
        · exact Or.inr ⟨v, proof, si, rfl, rfl, hfind, hv, by simpa [hv] using hrun⟩

/-- A `Run` that returns without error returns the root of the proof of the operator. -/
theorem Run_value_of_no_error (ciHash : commitInfo → Bytes) (op : MultiStoreProofOp)
    (args : List Bytes) (val : Option (List Bytes))
    (h : op.Run ciHash args = .returned val none) :
    ∃ proof, op.Proof = some proof ∧ val = some [proof.ComputeRootHash ciHash] := by
  rcases Run_cases ciHash op args with
    ⟨_, hr⟩ | ⟨_, _, _, hr⟩ | ⟨_, _, _, _, _, hr⟩ | ⟨_, proof, _, _, hp, _, _, hr⟩
      | ⟨_, _, _, _, _, _, _, hr⟩
  · rw [hr] at h; simp at h
  · rw [hr] at h; simp at h
  · rw [hr] at h; simp at h
  · rw [hr] at h
    injection h with h1 _
    exact ⟨proof, hp, h1.symm⟩
  · rw [hr] at h; simp at h

theorem errKeyNotFound_ne_valueSize (k : Bytes) : errKeyNotFound k ≠ errValueSize := by
  simp [errKeyNotFound, errValueSize, cmn.NewError]

theorem errKeyNotFound_ne_hashMismatch (k : Bytes) (name : GoString) (hash value : Bytes) :
    errKeyNotFound k ≠ errHashMismatch name hash value := by
  simp [errKeyNotFound, errHashMismatch, cmn.NewError]

theorem Sprintf_hashMismatch (name : GoString) (hash value : Bytes) :
    Sprintf (lit "hash mismatch for substore %v: %X vs %X")
        [.str name, .bytes hash, .bytes value]
      = lit "hash mismatch for substore " ++ name ++ lit ": " ++ fmtX hash
          ++ lit " vs " ++ fmtX value := by
  have h1 : lit "hash mismatch for substore %v: %X vs %X"
      = lit "hash mismatch for substore "
          ++ ([37, 118] ++ (lit ": " ++ ([37, 88] ++ (lit " vs " ++ [37, 88])))) := by
    decide
  have h2 : lit "hash mismatch for substore "
      = [104, 97, 115, 104, 32, 109, 105, 115, 109, 97, 116, 99, 104, 32, 102, 111, 114,
          32, 115, 117, 98, 115, 116, 111, 114, 101, 32] := by decide
  have h3 : lit ": " = [58, 32] := by decide
  have h4 : lit " vs " = [32, 118, 115, 32] := by decide
  rw [h1, h2, h3, h4]
  simp [Sprintf, FmtArg.fmtV, FmtArg.fmtX, fmtExtras]

end store

/-! ## The claims on `Run` and `RequireProof` -/

namespace store

/-- With distinct names, the search finds the store info that is in the list. -/
theorem find_of_mem_of_nodup (infos : List storeInfo) (si : storeInfo)
    (hnodup : (infos.map fun x => x.Name).Nodup) (hmem : si ∈ infos) :
    infos.find? (fun x => decide (x.Name = si.Name)) = some si := by
  induction infos with
  | nil => simp at hmem
  | cons x rest ih =>
    rw [List.map_cons, List.nodup_cons] at hnodup
    rcases List.mem_cons.mp hmem with rfl | hrest
    · simp [List.find?]
    · have hne : x.Name ≠ si.Name := by
        intro heq
        exact hnodup.1 (heq ▸ List.mem_map_of_mem (fun x => x.Name) hrest)
      simp [List.find?, hne, ih hnodup.2 hrest]

/-- C1: soundness of `MultiStoreProofOp.Run`. If `Run(args)` returns without error,
then `args` has exactly one element `v`, the operator carries a proof whose store infos
contain an entry named `string(key)` with commit hash equal to `v`, and the returned
list is exactly `[proof.ComputeRootHash()]`. -/
theorem Run_sound (ciHash : commitInfo → Bytes) (op : MultiStoreProofOp)
    (args : List Bytes) (val : Option (List Bytes))
    (h : op.Run ciHash args = .returned val none) :
    ∃ v proof, args = [v] ∧ op.Proof = some proof
      ∧ (∃ si ∈ proof.StoreInfos, si.Name = string op.key ∧ si.Core.CommitID.Hash = v)
      ∧ val = some [proof.ComputeRootHash ciHash] := by
  rcases Run_cases ciHash op args with
    ⟨_, hr⟩ | ⟨_, _, _, hr⟩ | ⟨_, _, _, _, _, hr⟩ | ⟨v, proof, si, ha, hp, hf, hv, hr⟩
      | ⟨_, _, _, _, _, _, _, hr⟩
  · rw [hr] at h; simp at h
  · rw [hr] at h; simp at h
  · rw [hr] at h; simp at h
  · rw [hr] at h
    have hval : val = some [proof.ComputeRootHash ciHash] := by
      injection h with h1 _
      exact h1.symm
    have hname : si.Name = string op.key := by
      simpa using List.find?_some hf
    exact ⟨v, proof, ha, hp, ⟨si, List.mem_of_find?_eq_some hf, hname, hv.symm⟩, hval⟩
  · rw [hr] at h; simp at h

/-- C1, on the sample proof: `Run` on `bank` and `[1, 2]` returns without error. -/
theorem Run_sound_witness :
    (NewMultiStoreProofOp (lit "bank") (some bankAccProof)).Run sampleHash [[1, 2]]
        = .returned (some [bankAccProof.ComputeRootHash sampleHash]) none
    ∧ ∃ (v : Bytes) (proof : MultiStoreProof), ([[1, 2]] : List Bytes) = [v]
      ∧ (NewMultiStoreProofOp (lit "bank") (some bankAccProof)).Proof = some proof
      ∧ (∃ si ∈ proof.StoreInfos,
          si.Name = string (NewMultiStoreProofOp (lit "bank") (some bankAccProof)).key
            ∧ si.Core.CommitID.Hash = v)
      ∧ some [bankAccProof.ComputeRootHash sampleHash]
          = some [proof.ComputeRootHash sampleHash] :=
  ⟨by decide,
   Run_sound sampleHash (NewMultiStoreProofOp (lit "bank") (some bankAccProof)) [[1, 2]]
     (some [bankAccProof.ComputeRootHash sampleHash]) (by decide)⟩

/-- C2: membership success of `MultiStoreProofOp.Run`. For every proof whose store-info
names are distinct and every entry `(name, hash)` of its store infos, the operator with
key `bytes(name)` run on `[hash]` succeeds and returns `[proof.ComputeRootHash()]`. -/
theorem Run_membership (ciHash : commitInfo → Bytes) (proof : MultiStoreProof)
    (si : storeInfo) (hnodup : (proof.StoreInfos.map fun x => x.Name).Nodup)
    (hmem : si ∈ proof.StoreInfos) :
    (NewMultiStoreProofOp si.Name (some proof)).Run ciHash [si.Core.CommitID.Hash]
      = .returned (some [proof.ComputeRootHash ciHash]) none := by
  have hfind := find_of_mem_of_nodup proof.StoreInfos si hnodup hmem
  simp only [NewMultiStoreProofOp]
  rw [Run_singleton, loop_eq_find]
  simp only [string]
  rw [hfind]
  simp

/-- C2, on the example of the specification: store infos `bank` and `acc`, key `bank`,
input `[H1]`. -/
theorem Run_membership_witness :
    (bankAccProof.StoreInfos.map fun x => x.Name).Nodup
    ∧ mkStoreInfo (lit "bank") [1, 2] ∈ bankAccProof.StoreInfos
    ∧ (NewMultiStoreProofOp (lit "bank") (some bankAccProof)).Run sampleHash [[1, 2]]
        = .returned (some [bankAccProof.ComputeRootHash sampleHash]) none :=
  ⟨by decide, by decide,
   Run_membership sampleHash bankAccProof (mkStoreInfo (lit "bank") [1, 2])
     (by decide) (by decide)⟩

/-- C3 as stated fails when a name occurs twice: in the store infos `(a, [1])`,
`(a, [2])` the entry `(a, [2])` is named `a` and its commit hash differs from the input
`[1]`, yet `Run([[1]])` with key `a` succeeds. -/
theorem Run_hash_mismatch_counterexample :
    (mkStoreInfo (lit "a") [2] ∈ twiceAProof.StoreInfos
      ∧ (mkStoreInfo (lit "a") [2]).Name = string (lit "a")
      ∧ ([1] : Bytes) ≠ (mkStoreInfo (lit "a") [2]).Core.CommitID.Hash)
    ∧ (NewMultiStoreProofOp (lit "a") (some twiceAProof)).Run sampleHash [[1]]
        = .returned (some [twiceAProof.ComputeRootHash sampleHash]) none
    ∧ (NewMultiStoreProofOp (lit "a") (some twiceAProof)).Run sampleHash [[1]]
        ≠ .returned none (some (errHashMismatch (lit "a") [2] [1])) := by
  decide

/-- C3, amended: hash mismatch in `MultiStoreProofOp.Run`. If `si` is the first entry
of the store infos named `string(key)` and the input `v` is not byte-equal to its
commit hash, then `Run([v])` returns no output and the hash-mismatch error, whose
message is made of the sub-store name, the recorded commit hash and the supplied value
(both in upper-case hexadecimal). -/
theorem Run_hash_mismatch (ciHash : commitInfo → Bytes) (key v : Bytes)
    (proof : MultiStoreProof) (si : storeInfo)
    (hfind : proof.StoreInfos.find? (fun x => decide (x.Name = string key)) = some si)
    (hne : v ≠ si.Core.CommitID.Hash) :
    (NewMultiStoreProofOp key (some proof)).Run ciHash [v]
        = .returned none (some (cmn.NewError (lit "hash mismatch for substore %v: %X vs %X")
            [.str si.Name, .bytes si.Core.CommitID.Hash, .bytes v]))
    ∧ si.Name = string key
    ∧ Sprintf (lit "hash mismatch for substore %v: %X vs %X")
          [.str si.Name, .bytes si.Core.CommitID.Hash, .bytes v]
        = lit "hash mismatch for substore " ++ si.Name ++ lit ": "
            ++ fmtX si.Core.CommitID.Hash ++ lit " vs " ++ fmtX v := by
  refine ⟨?_, by simpa using List.find?_some hfind, Sprintf_hashMismatch _ _ _⟩
  simp only [NewMultiStoreProofOp]
  rw [Run_singleton, loop_eq_find, hfind]
  simp [hne, errHashMismatch]

/-- C3, on the example of the specification: key `bank`, a wrong input. -/
theorem Run_hash_mismatch_witness :
    bankAccProof.StoreInfos.find? (fun x => decide (x.Name = string (lit "bank")))
        = some (mkStoreInfo (lit "bank") [1, 2])
    ∧ ([9] : Bytes) ≠ (mkStoreInfo (lit "bank") [1, 2]).Core.CommitID.Hash
    ∧ (NewMultiStoreProofOp (lit "bank") (some bankAccProof)).Run sampleHash [[9]]
        = .returned none (some (cmn.NewError (lit "hash mismatch for substore %v: %X vs %X")
            [.str (lit "bank"), .bytes [1, 2], .bytes [9]]))
    ∧ Sprintf (lit "hash mismatch for substore %v: %X vs %X")
          [.str (lit "bank"), .bytes [1, 2], .bytes [9]]
        = lit "hash mismatch for substore bank: 0102 vs 09" :=
  ⟨by decide, by decide,
   (Run_hash_mismatch sampleHash (lit "bank") [9] bankAccProof
      (mkStoreInfo (lit "bank") [1, 2]) (by decide) (by decide)).1,
   by decide⟩

end store

namespace store

/-- C4: not found in `MultiStoreProofOp.Run`. If no entry of the store infos is named
`string(key)` (in particular when the store infos are empty), `Run([v])` returns no
output and the not-found error; conversely, when `Run` returns the not-found error, the
argument list has one element, no entry has that name, and there is no output. -/
theorem Run_not_found (ciHash : commitInfo → Bytes) :
    (∀ (key v : Bytes) (proof : MultiStoreProof),
        (∀ si ∈ proof.StoreInfos, si.Name ≠ string key) →
        (NewMultiStoreProofOp key (some proof)).Run ciHash [v]
          = .returned none
              (some (cmn.NewError (lit "key %v not found in multistore proof") [.bytes key])))
    ∧ (∀ (key v : Bytes),
        (NewMultiStoreProofOp key (some (NewMultiStoreProof []))).Run ciHash [v]
          = .returned none
              (some (cmn.NewError (lit "key %v not found in multistore proof") [.bytes key])))
    ∧ (∀ (op : MultiStoreProofOp) (args : List Bytes) (val : Option (List Bytes))
        (k : Bytes),
        op.Run ciHash args
          = .returned val
              (some (cmn.NewError (lit "key %v not found in multistore proof") [.bytes k])) →
        ∃ v proof, args = [v] ∧ op.Proof = some proof
          ∧ (∀ si ∈ proof.StoreInfos, si.Name ≠ string op.key)
          ∧ val = none ∧ k = op.key) := by
  have hfwd : ∀ (key v : Bytes) (proof : MultiStoreProof),
      (∀ si ∈ proof.StoreInfos, si.Name ≠ string key) →
      (NewMultiStoreProofOp key (some proof)).Run ciHash [v]
        = .returned none (some (errKeyNotFound key)) := by
    intro key v proof hall
    have hnone : proof.StoreInfos.find? (fun x => decide (x.Name = string key)) = none := by
      rw [List.find?_eq_none]
      intro si hsi
      simpa using hall si hsi
    simp only [NewMultiStoreProofOp]
    rw [Run_singleton, loop_eq_find, hnone]
  refine ⟨hfwd, ?_, ?_⟩
  · intro key v
    exact hfwd key v (NewMultiStoreProof []) (by simp [NewMultiStoreProof])
  · intro op args val k h
    change op.Run ciHash args = .returned val (some (errKeyNotFound k)) at h
    rcases Run_cases ciHash op args with
      ⟨_, hr⟩ | ⟨_, _, _, hr⟩ | ⟨v, proof, ha, hp, hall, hr⟩ | ⟨_, _, _, _, _, _, _, hr⟩
        | ⟨_, _, _, _, _, _, _, hr⟩
    · rw [hr] at h
      injection h with _ h2
      injection h2 with h3
      exact absurd h3.symm (errKeyNotFound_ne_valueSize k)
    · rw [hr] at h; simp at h
    · rw [hr] at h
      injection h with h1 h2
      injection h2 with h3
      have hk : k = op.key := by
        simpa [errKeyNotFound, cmn.NewError] using h3.symm
      exact ⟨v, proof, ha, hp, hall, h1.symm, hk⟩
    · rw [hr] at h; simp at h
    · rw [hr] at h
      injection h with _ h2
      injection h2 with h3
      exact absurd h3.symm (errKeyNotFound_ne_hashMismatch k _ _ _)

/-- C4, on the example of the specification: key `missing` on the sample proof. -/
theorem Run_not_found_witness :
    (∀ si ∈ bankAccProof.StoreInfos, si.Name ≠ string (lit "missing"))
    ∧ (NewMultiStoreProofOp (lit "missing") (some bankAccProof)).Run sampleHash [[7]]
        = .returned none
            (some (cmn.NewError (lit "key %v not found in multistore proof")
              [.bytes (lit "missing")]))
    ∧ ∃ (v : Bytes) (proof : MultiStoreProof), ([[7]] : List Bytes) = [v]
        ∧ (NewMultiStoreProofOp (lit "missing") (some bankAccProof)).Proof = some proof
        ∧ (∀ si ∈ proof.StoreInfos,
            si.Name ≠ string (NewMultiStoreProofOp (lit "missing") (some bankAccProof)).key)
        ∧ (none : Option (List Bytes)) = none
        ∧ lit "missing" = (NewMultiStoreProofOp (lit "missing") (some bankAccProof)).key :=
  ⟨by decide,
   (Run_not_found sampleHash).1 (lit "missing") [7] bankAccProof (by decide),
   (Run_not_found sampleHash).2.2 (NewMultiStoreProofOp (lit "missing") (some bankAccProof))
     [[7]] none (lit "missing") (by decide)⟩

/-- C5: arity of `MultiStoreProofOp.Run`. On every argument list whose length is not
exactly one, `Run` returns no output and the arity error, whatever the key and the
proof of the operator are. -/
theorem Run_arity (ciHash : commitInfo → Bytes) (op : MultiStoreProofOp)
    (args : List Bytes) (h : args.length ≠ 1) :
    op.Run ciHash args
      = .returned none (some (cmn.NewError (lit "Value size is not 1") [])) := by
  simp [MultiStoreProofOp.Run, h, errValueSize]

/-- C5, on the examples of the specification: `run([])` and `run([a, b])`. -/
theorem Run_arity_witness :
    ([] : List Bytes).length ≠ 1
    ∧ (NewMultiStoreProofOp (lit "bank") (some bankAccProof)).Run sampleHash []
        = .returned none (some (cmn.NewError (lit "Value size is not 1") []))
    ∧ ([[1, 2], [3]] : List Bytes).length ≠ 1
    ∧ (NewMultiStoreProofOp (lit "bank") (some bankAccProof)).Run sampleHash [[1, 2], [3]]
        = .returned none (some (cmn.NewError (lit "Value size is not 1") [])) :=
  ⟨by decide,
   Run_arity sampleHash (NewMultiStoreProofOp (lit "bank") (some bankAccProof)) []
     (by decide),
   by decide,
   Run_arity sampleHash (NewMultiStoreProofOp (lit "bank") (some bankAccProof))
     [[1, 2], [3]] (by decide)⟩

/-- C6: `RequireProof(subpath)` is true if and only if `subpath` is exactly the string
`/key`; on `/key/subpath`, on the empty string and on `/value` it is false. -/
theorem RequireProof_iff (subpath : GoString) :
    (RequireProof subpath = true ↔ subpath = lit "/key")
    ∧ (RequireProof subpath = false ↔ subpath ≠ lit "/key")
    ∧ RequireProof (lit "/key") = true
    ∧ RequireProof (lit "/key/subpath") = false
    ∧ RequireProof (lit "") = false
    ∧ RequireProof (lit "/value") = false := by
  refine ⟨?_, ?_, by decide, by decide, by decide, by decide⟩
  · by_cases h : subpath = lit "/key" <;> simp [RequireProof, h]
  · by_cases h : subpath = lit "/key" <;> simp [RequireProof, h]

end store

/-! ## The sample codec inverts its encoding -/

namespace store

theorem sampleDecBytes_enc (b rest : Bytes) :
    sampleDecBytes (sampleEncBytes b ++ rest) = some (b, rest) := by
  induction b with
  | nil =>
    simp only [sampleEncBytes, List.cons_append, List.nil_append]
    unfold sampleDecBytes
    simp
  | cons x b ih =>
    simp only [sampleEncBytes, List.cons_append]
    unfold sampleDecBytes
    simp [ih]

theorem sampleDecInfos_enc (infos : List storeInfo) (rest : Bytes) (fuel : Nat)
    (h : infos.length < fuel) :
    sampleDecInfos fuel (sampleEncInfos infos ++ rest) = some (infos, rest) := by
  induction infos generalizing fuel with
  | nil =>
    cases fuel with
    | zero => simp at h
    | succ n => simp [sampleEncInfos, sampleDecInfos]
  | cons si infos ih =>
    cases fuel with
    | zero => simp at h
    | succ n =>
      have hn : infos.length < n := by simpa using h
      simp [sampleEncInfos, sampleDecInfos, List.append_assoc, sampleDecBytes_enc,
        ih n hn, mkStoreInfo]

theorem length_lt_sampleEncInfos (infos : List storeInfo) :
    infos.length < (sampleEncInfos infos).length := by
  induction infos with
  | nil => simp [sampleEncInfos]
  | cons si infos ih =>
    simp only [sampleEncInfos, List.length_cons, List.length_append]
    omega

/-- Decoding the sample encoding of an operator gives its proof back. -/
theorem sampleCodec_inverts (op : MultiStoreProofOp) :
    sampleCodec.UnmarshalBinaryLengthPrefixed (sampleCodec.MustMarshalBinaryLengthPrefixed op)
      = .ok { key := [], Proof := op.Proof } := by
  obtain ⟨key, pr⟩ := op
  cases pr with
  | none => simp [sampleCodec, sampleMarshal, sampleUnmarshal]
  | some proof =>
    have h := sampleDecInfos_enc proof.StoreInfos [] (sampleEncInfos proof.StoreInfos).length
      (length_lt_sampleEncInfos proof.StoreInfos)
    rw [List.append_nil] at h
    simp [sampleCodec, sampleMarshal, sampleUnmarshal, h]

end store

/-! ## The claims on the encoded form -/

namespace store

/-- C7: round trip of the multi-store operator. With a codec whose unmarshal gives back
the proof that marshal encoded, `MultiStoreProofOpDecoder(op.ProofOp())` succeeds and
yields an operator with the same key and the same proof as `op` (the operator `op`
itself), and therefore the same `Run` result as `op` on every argument list. -/
theorem Decoder_ProofOp_roundtrip (ciHash : commitInfo → Bytes) (cdc : Codec)
    (op : MultiStoreProofOp)
    (hcodec : ∃ op2, cdc.UnmarshalBinaryLengthPrefixed
        (cdc.MustMarshalBinaryLengthPrefixed op) = .ok op2 ∧ op2.Proof = op.Proof) :
    ∃ dec, MultiStoreProofOpDecoder cdc (op.ProofOp cdc) = .returned (some dec) none
      ∧ dec.GetKey = op.GetKey ∧ dec.Proof = op.Proof ∧ dec = op
      ∧ ∀ args, dec.Run ciHash args = op.Run ciHash args := by
  obtain ⟨op2, hdec, hproof⟩ := hcodec
  refine ⟨op, ?_, rfl, rfl, rfl, fun _ => rfl⟩
  simp [MultiStoreProofOpDecoder, MultiStoreProofOp.ProofOp, hdec, hproof,
    NewMultiStoreProofOp]

/-- C7, on the sample codec and the operator of the example of the specification. -/
theorem Decoder_ProofOp_roundtrip_witness :
    (∃ op2, sampleCodec.UnmarshalBinaryLengthPrefixed
        (sampleCodec.MustMarshalBinaryLengthPrefixed
          (NewMultiStoreProofOp (lit "bank") (some bankAccProof))) = .ok op2
      ∧ op2.Proof = (NewMultiStoreProofOp (lit "bank") (some bankAccProof)).Proof)
    ∧ ∃ dec, MultiStoreProofOpDecoder sampleCodec
          ((NewMultiStoreProofOp (lit "bank") (some bankAccProof)).ProofOp sampleCodec)
        = .returned (some dec) none
      ∧ dec.GetKey = (NewMultiStoreProofOp (lit "bank") (some bankAccProof)).GetKey
      ∧ dec.Proof = (NewMultiStoreProofOp (lit "bank") (some bankAccProof)).Proof
      ∧ dec = NewMultiStoreProofOp (lit "bank") (some bankAccProof)
      ∧ ∀ args, dec.Run sampleHash args
          = (NewMultiStoreProofOp (lit "bank") (some bankAccProof)).Run sampleHash args :=
  ⟨⟨_, sampleCodec_inverts _, rfl⟩,
   Decoder_ProofOp_roundtrip sampleHash sampleCodec
     (NewMultiStoreProofOp (lit "bank") (some bankAccProof))
     ⟨_, sampleCodec_inverts _, rfl⟩⟩

/-- C8: a wrong tag is rejected. For every envelope whose type is not the literal
`multistore`, `MultiStoreProofOpDecoder` returns an error and no operator, whatever the
key and the data of the envelope are; the result does not depend on the codec (the
payload is not decoded). -/
theorem Decoder_wrong_type (cdc : Codec) (pop : merkle.ProofOp)
    (h : pop.Typ ≠ lit "multistore") :
    MultiStoreProofOpDecoder cdc pop
        = .returned none
            (some (cmn.NewError (lit "unexpected ProofOp.Type; got %v, want %v")
              [.str pop.Typ, .str (lit "multistore")]))
    ∧ ∀ cdc2 : Codec, MultiStoreProofOpDecoder cdc2 pop = MultiStoreProofOpDecoder cdc pop := by
  have key : ∀ c : Codec, MultiStoreProofOpDecoder c pop
      = .returned none
          (some (cmn.NewError (lit "unexpected ProofOp.Type; got %v, want %v")
            [.str pop.Typ, .str (lit "multistore")])) := by
    intro c
    simp [MultiStoreProofOpDecoder, ProofOpMultiStoreProof, h]
  exact ⟨key cdc, fun c => (key c).trans (key cdc).symm⟩

/-- C8, on an envelope with the tag `iavl:v` whose data is a valid sample payload. -/
theorem Decoder_wrong_type_witness :
    lit "iavl:v" ≠ lit "multistore"
    ∧ MultiStoreProofOpDecoder sampleCodec
          { Typ := lit "iavl:v", Key := lit "bank", Data := [0] }
        = .returned none
            (some (cmn.NewError (lit "unexpected ProofOp.Type; got %v, want %v")
              [.str (lit "iavl:v"), .str (lit "multistore")])) :=
  ⟨by decide,
   (Decoder_wrong_type sampleCodec { Typ := lit "iavl:v", Key := lit "bank", Data := [0] }
      (by decide)).1⟩

/-- C9: the encoded envelope of the multi-store operator. For every key `k` and proof
`p`, `NewMultiStoreProofOp(k, p).GetKey()` is `k`, and `NewMultiStoreProofOp(k, p)
.ProofOp()` is an envelope whose type is exactly `multistore` and whose key is `k`. -/
theorem NewMultiStoreProofOp_envelope (cdc : Codec) (k : Bytes)
    (p : Option MultiStoreProof) :
    (NewMultiStoreProofOp k p).GetKey = k
    ∧ ((NewMultiStoreProofOp k p).ProofOp cdc).Typ = lit "multistore"
    ∧ ((NewMultiStoreProofOp k p).ProofOp cdc).Key = k
    ∧ ((NewMultiStoreProofOp k p).ProofOp cdc).Data
        = cdc.MustMarshalBinaryLengthPrefixed (NewMultiStoreProofOp k p) :=
  ⟨rfl, rfl, rfl, rfl⟩

/-- C10 fails on the code: the registry built by `DefaultProofRuntime` has no decoder
under the tag `multistore` (it holds the three library decoders only), so decoding an
envelope produced by `MultiStoreProofOp.ProofOp()` through that runtime returns no
operator and the unknown-operator-type error. -/
theorem DefaultProofRuntime_multistore_unregistered (lib : LibDecoders) (cdc : Codec)
    (op : MultiStoreProofOp) :
    ((DefaultProofRuntime lib).decoders (lit "multistore")).isNone = true
    ∧ (DefaultProofRuntime lib).Decode (op.ProofOp cdc)
        = .returned none
            (some (cmn.NewError (lit "unrecognized proof type %v")
              [.str (lit "multistore")])) := by
  have h1 : lit "multistore" ≠ merkle.ProofOpSimpleValue := by decide
  have h2 : lit "multistore" ≠ iavl.ProofOpIAVLValue := by decide
  have h3 : lit "multistore" ≠ iavl.ProofOpIAVLAbsence := by decide
  have hnone : (DefaultProofRuntime lib).decoders (lit "multistore") = none := by
    simp [DefaultProofRuntime, merkle.ProofRuntime.RegisterOpDecoder,
      merkle.NewProofRuntime, h1, h2, h3]
  refine ⟨by rw [hnone]; rfl, ?_⟩
  have htyp : (op.ProofOp cdc).Typ = lit "multistore" := rfl
  simp only [merkle.ProofRuntime.Decode, htyp, hnone, merkle.errUnrecognized]

end store

/-! ## The claims on the order of the store infos -/

namespace store

/-- With distinct names, the search by name finds the same store info in every
permutation of the list. -/
theorem find_perm_of_nodup (l1 l2 : List storeInfo) (name : GoString)
    (hperm : l1.Perm l2) (hnodup : (l1.map fun x => x.Name).Nodup) :
    l2.find? (fun x => decide (x.Name = name))
      = l1.find? (fun x => decide (x.Name = name)) := by
  cases h : l1.find? (fun x => decide (x.Name = name)) with
  | none =>
    rw [List.find?_eq_none] at h ⊢
    intro x hx
    exact h x (hperm.mem_iff.mpr hx)
  | some si =>
    have hname : si.Name = name := by simpa using List.find?_some h
    have hmem : si ∈ l2 := hperm.mem_iff.mp (List.mem_of_find?_eq_some h)
    have hnodup2 : (l2.map fun x => x.Name).Nodup :=
      ((hperm.map fun x => x.Name).nodup_iff).mp hnodup
    have := find_of_mem_of_nodup l2 si hnodup2 hmem
    rwa [hname] at this

/-- C11: order-insensitivity of the membership check. For two proofs whose store infos
are a permutation of each other and have distinct names, for every key and every
argument list, either `Run` fails on both with the same error (arity, not found or hash
mismatch) and no output, or `Run` succeeds on both, each with the root of its own
proof; so one succeeds if and only if the other does. -/
theorem Run_perm (ciHash : commitInfo → Bytes) (key : Bytes) (args : List Bytes)
    (p1 p2 : MultiStoreProof) (hperm : p1.StoreInfos.Perm p2.StoreInfos)
    (hnodup : (p1.StoreInfos.map fun x => x.Name).Nodup) :
    ((∃ e, (NewMultiStoreProofOp key (some p1)).Run ciHash args = .returned none (some e)
        ∧ (NewMultiStoreProofOp key (some p2)).Run ciHash args = .returned none (some e)
        ∧ (e = errValueSize ∨ e = errKeyNotFound key
            ∨ ∃ (si : storeInfo) (v : Bytes),
              e = errHashMismatch si.Name si.Core.CommitID.Hash v))
      ∨ ((NewMultiStoreProofOp key (some p1)).Run ciHash args
            = .returned (some [p1.ComputeRootHash ciHash]) none
          ∧ (NewMultiStoreProofOp key (some p2)).Run ciHash args
            = .returned (some [p2.ComputeRootHash ciHash]) none))
    ∧ ((∃ out, (NewMultiStoreProofOp key (some p1)).Run ciHash args
            = .returned (some out) none)
        ↔ (∃ out, (NewMultiStoreProofOp key (some p2)).Run ciHash args
            = .returned (some out) none)) := by
  have main : (∃ e, (NewMultiStoreProofOp key (some p1)).Run ciHash args
          = .returned none (some e)
        ∧ (NewMultiStoreProofOp key (some p2)).Run ciHash args = .returned none (some e)
        ∧ (e = errValueSize ∨ e = errKeyNotFound key
            ∨ ∃ (si : storeInfo) (v : Bytes),
              e = errHashMismatch si.Name si.Core.CommitID.Hash v))
      ∨ ((NewMultiStoreProofOp key (some p1)).Run ciHash args
            = .returned (some [p1.ComputeRootHash ciHash]) none
          ∧ (NewMultiStoreProofOp key (some p2)).Run ciHash args
            = .returned (some [p2.ComputeRootHash ciHash]) none) := by
    by_cases hlen : args.length ≠ 1
    · exact Or.inl ⟨errValueSize, Run_of_length_ne ciHash _ args hlen,
        Run_of_length_ne ciHash _ args hlen, Or.inl rfl⟩
    · obtain ⟨v, rfl⟩ : ∃ v, args = [v] := by
        match args, hlen with
        | [v], _ => exact ⟨v, rfl⟩
        | [], h => simp at h
        | _ :: _ :: _, h => simp at h
      have hfind := find_perm_of_nodup p1.StoreInfos p2.StoreInfos (string key) hperm hnodup
      simp only [NewMultiStoreProofOp]
      rw [Run_singleton, Run_singleton, loop_eq_find, loop_eq_find, hfind]
      cases p1.StoreInfos.find? (fun x => decide (x.Name = string key)) with
      | none => exact Or.inl ⟨errKeyNotFound key, rfl, rfl, Or.inr (Or.inl rfl)⟩
      | some si =>
        by_cases hv : v = si.Core.CommitID.Hash
        · right
          simp [hv]
        · left
          refine ⟨errHashMismatch si.Name si.Core.CommitID.Hash v, ?_, ?_,
            Or.inr (Or.inr ⟨si, v, rfl⟩)⟩ <;> simp [hv]
  refine ⟨main, ?_⟩
  rcases main with ⟨e, h1, h2, _⟩ | ⟨h1, h2⟩
  · rw [h1, h2]
  · rw [h1, h2]
    exact ⟨fun _ => ⟨_, rfl⟩, fun _ => ⟨_, rfl⟩⟩

/-- C11, on the sample proof and its store infos in the other order, key `bank`. -/
theorem Run_perm_witness :
    bankAccProof.StoreInfos.Perm accBankProof.StoreInfos
    ∧ (bankAccProof.StoreInfos.map fun x => x.Name).Nodup
    ∧ (NewMultiStoreProofOp (lit "bank") (some bankAccProof)).Run sampleHash [[1, 2]]
        = .returned (some [bankAccProof.ComputeRootHash sampleHash]) none
    ∧ (NewMultiStoreProofOp (lit "bank") (some accBankProof)).Run sampleHash [[1, 2]]
        = .returned (some [accBankProof.ComputeRootHash sampleHash]) none
    ∧ ((∃ out, (NewMultiStoreProofOp (lit "bank") (some bankAccProof)).Run sampleHash [[9]]
            = .returned (some out) none)
        ↔ (∃ out, (NewMultiStoreProofOp (lit "bank") (some accBankProof)).Run sampleHash [[9]]
            = .returned (some out) none)) :=
  ⟨List.Perm.swap _ _ _, by decide, by decide, by decide,
   (Run_perm sampleHash (lit "bank") [[9]] bankAccProof accBankProof
      (List.Perm.swap _ _ _) (by decide)).2⟩

/-- C12 as stated fails on a `nil` receiver: `ComputeRootHash` has a failure mode.
Called on a `nil` `*MultiStoreProof` it panics at the read of `proof.StoreInfos`, also
with a commit-info hash that always returns; so `Run` on one argument panics for an
operator whose `Proof` is `nil` (such as the zero value `MultiStoreProofOp{}`). -/
theorem ComputeRootHash_nil_counterexample :
    MultiStoreProof.ComputeRootHashCall (fun ci => Call.value (sampleHash ci)) none
        = .panicked
    ∧ (NewMultiStoreProofOp [] none).Run sampleHash [[1, 2]] = .panicked
    ∧ (NewMultiStoreProofOp (lit "bank") none).Run sampleHash [[1, 2]] = .panicked := by
  decide

/-- C12, amended: on a receiver that is not `nil`, `ComputeRootHash` is a function of
the store-info list alone. Its result is then the result of the commit-info hash on
`{Version: -1, StoreInfos: proof.StoreInfos}`; it fails only on a `nil` receiver or when
the commit-info hash itself fails, so with a hash that returns it returns that hash;
two proofs with equal store-info lists give the same root; `Run` on one argument panics
exactly when `ComputeRootHash` does; and the value of a `Run` that succeeds is the list
of that one hash, whatever the key and the input are. -/
theorem ComputeRootHash_of_store_infos (hashCall : commitInfo → Call Bytes)
    (ciHash : commitInfo → Bytes) :
    (∀ proof : MultiStoreProof,
        MultiStoreProof.ComputeRootHashCall hashCall (some proof)
          = hashCall { Version := -1, StoreInfos := proof.StoreInfos })
    ∧ (∀ recv : Option MultiStoreProof,
        MultiStoreProof.ComputeRootHashCall hashCall recv = .panicked
          ↔ (recv = none
              ∨ ∃ proof, recv = some proof
                  ∧ hashCall { Version := -1, StoreInfos := proof.StoreInfos } = .panicked))
    ∧ (∀ proof : MultiStoreProof,
        MultiStoreProof.ComputeRootHashCall (fun ci => Call.value (ciHash ci)) (some proof)
            = .value (proof.ComputeRootHash ciHash)
          ∧ proof.ComputeRootHash ciHash
              = ciHash { Version := -1, StoreInfos := proof.StoreInfos })
    ∧ (∀ p1 p2 : MultiStoreProof, p1.StoreInfos = p2.StoreInfos →
        MultiStoreProof.ComputeRootHashCall hashCall (some p1)
            = MultiStoreProof.ComputeRootHashCall hashCall (some p2)
          ∧ p1.ComputeRootHash ciHash = p2.ComputeRootHash ciHash)
    ∧ (∀ (op : MultiStoreProofOp) (v : Bytes),
        op.Run ciHash [v] = .panicked
          ↔ MultiStoreProof.ComputeRootHashCall (fun ci => Call.value (ciHash ci)) op.Proof
              = .panicked)
    ∧ (∀ (p1 p2 : MultiStoreProof) (key1 key2 : Bytes) (args1 args2 : List Bytes)
        (val1 val2 : Option (List Bytes)),
        p1.StoreInfos = p2.StoreInfos →
        (NewMultiStoreProofOp key1 (some p1)).Run ciHash args1 = .returned val1 none →
        (NewMultiStoreProofOp key2 (some p2)).Run ciHash args2 = .returned val2 none →
        val1 = some [ciHash { Version := -1, StoreInfos := p1.StoreInfos }]
          ∧ val2 = val1) := by
  refine ⟨fun _ => rfl, ?_, fun _ => ⟨rfl, rfl⟩, ?_, ?_, ?_⟩
  · intro recv
    cases recv with
    | none => simp [MultiStoreProof.ComputeRootHashCall]
    | some proof => simp [MultiStoreProof.ComputeRootHashCall]
  · intro p1 p2 h
    simp [MultiStoreProof.ComputeRootHashCall, MultiStoreProof.ComputeRootHash, h]
  · intro op v
    obtain ⟨key, pr⟩ := op
    cases pr with
    | none => simp [Run_singleton_nil, MultiStoreProof.ComputeRootHashCall]
    | some proof =>
      simp only [MultiStoreProof.ComputeRootHashCall]
      constructor
      · intro h
        rcases Run_cases ciHash { key := key, Proof := some proof } [v] with
          ⟨_, hr⟩ | ⟨_, _, hp, _⟩ | ⟨_, _, _, _, _, hr⟩ | ⟨_, _, _, _, _, _, _, hr⟩
            | ⟨_, _, _, _, _, _, _, hr⟩
        · rw [hr] at h; simp at h
        · simp at hp
        · rw [hr] at h; simp at h
        · rw [hr] at h; simp at h
        · rw [hr] at h; simp at h
      · intro h
        simp at h
  · intro p1 p2 key1 key2 args1 args2 val1 val2 heq h1 h2
    obtain ⟨q1, hq1, hv1⟩ := Run_value_of_no_error ciHash _ args1 val1 h1
    obtain ⟨q2, hq2, hv2⟩ := Run_value_of_no_error ciHash _ args2 val2 h2
    have e1 : p1 = q1 := by simpa [NewMultiStoreProofOp] using hq1
    have e2 : p2 = q2 := by simpa [NewMultiStoreProofOp] using hq2
    subst e1 e2
    rw [hv1, hv2]
    simp [MultiStoreProof.ComputeRootHash, heq]

/-- C12, amended, on the sample proof: `Run` with key `bank` on `[1, 2]` and with key
`acc` on `[3]` return the same list of one root, the sample hash of
`{Version: -1, StoreInfos}`. -/
theorem ComputeRootHash_of_store_infos_witness :
    (NewMultiStoreProof bankAccProof.StoreInfos).StoreInfos = bankAccProof.StoreInfos
    ∧ MultiStoreProof.ComputeRootHashCall (fun ci => Call.value (sampleHash ci))
          (some bankAccProof)
        = .value (sampleHash { Version := -1, StoreInfos := bankAccProof.StoreInfos })
    ∧ (NewMultiStoreProofOp (lit "bank") (some bankAccProof)).Run sampleHash [[1, 2]]
        = .returned
            (some [sampleHash { Version := -1, StoreInfos := bankAccProof.StoreInfos }]) none
    ∧ (NewMultiStoreProofOp (lit "acc") (some bankAccProof)).Run sampleHash [[3]]
        = .returned
            (some [sampleHash { Version := -1, StoreInfos := bankAccProof.StoreInfos }]) none
    ∧ some [sampleHash { Version := -1, StoreInfos := bankAccProof.StoreInfos }]
        = some [sampleHash { Version := -1, StoreInfos := bankAccProof.StoreInfos }]
    ∧ some [sampleHash { Version := -1, StoreInfos := bankAccProof.StoreInfos }]
        = some [sampleHash { Version := -1, StoreInfos := bankAccProof.StoreInfos }] :=
  ⟨rfl,
   (ComputeRootHash_of_store_infos (fun ci => Call.value (sampleHash ci)) sampleHash).1
     bankAccProof,
   by decide, by decide,
   (ComputeRootHash_of_store_infos (fun ci => Call.value (sampleHash ci)) sampleHash).2.2.2.2.2
     bankAccProof bankAccProof (lit "bank") (lit "acc") [[1, 2]] [[3]]
     (some [sampleHash { Version := -1, StoreInfos := bankAccProof.StoreInfos }])
     (some [sampleHash { Version := -1, StoreInfos := bankAccProof.StoreInfos }])
     rfl (by decide) (by decide)⟩

/-- Whether the root depends on the order of the store infos is a property of the
commit-info hash: on the sample proof and its store infos in the other order, the roots
differ for `sampleHash` and are equal for `constHash`. -/
theorem ComputeRootHash_order_depends_on_hash :
    bankAccProof.ComputeRootHash sampleHash ≠ accBankProof.ComputeRootHash sampleHash
    ∧ bankAccProof.ComputeRootHash constHash = accBankProof.ComputeRootHash constHash := by
  decide

end store

/-! ## Chain verification with the multi-store stage -/

namespace store

open merkle

theorem loop_success_iff (expectedRoot : Bytes) (chain : List ProofOperator)
    (keyPath : List Bytes) (current : List Bytes) :
    verifyValue.loop expectedRoot chain keyPath current = .success
      ↔ chainRuns chain keyPath current [expectedRoot] := by
  induction chain generalizing keyPath current with
  | nil =>
    by_cases h : current = [expectedRoot] <;> simp [verifyValue.loop, chainRuns, h]
  | cons op rest ih =>
    cases keyPath with
    | nil => simp [verifyValue.loop, chainRuns]
    | cons seg segs =>
      by_cases hkey : op.GetKey = seg
      · cases hrun : op.Run current with
        | panicked => simp [verifyValue.loop, chainRuns, hkey, hrun]
        | returned val err =>
          cases err with
          | some e => simp [verifyValue.loop, chainRuns, hkey, hrun]
          | none => simp [verifyValue.loop, chainRuns, hkey, hrun, ih]
      · simp [verifyValue.loop, chainRuns, hkey]

theorem loop_other_root (expectedRoot root2 : Bytes) (chain : List ProofOperator)
    (keyPath : List Bytes) (current : List Bytes)
    (h : verifyValue.loop expectedRoot chain keyPath current = .success)
    (hne : root2 ≠ expectedRoot) :
    verifyValue.loop root2 chain keyPath current
      = .failure (.RootMismatchError root2 [expectedRoot]) := by
  induction chain generalizing keyPath current with
  | nil =>
    by_cases hc : current = [expectedRoot]
    · subst hc
      have hne2 : expectedRoot ≠ root2 := fun e => hne e.symm
      simp [verifyValue.loop, hne2]
    · simp [verifyValue.loop, hc] at h
  | cons op rest ih =>
    cases keyPath with
    | nil => simp [verifyValue.loop] at h
    | cons seg segs =>
      by_cases hkey : op.GetKey = seg
      · cases hrun : op.Run current with
        | panicked => simp [verifyValue.loop, hkey, hrun] at h
        | returned val err =>
          cases err with
          | some e => simp [verifyValue.loop, hkey, hrun] at h
          | none =>
            simp only [verifyValue.loop, hkey, hrun, ne_eq, not_true_eq_false,
              if_false] at h ⊢
            exact ih segs (val.getD []) h
      · simp [verifyValue.loop, hkey] at h

/-- The last stage of a chain that runs returned the output without error. -/
theorem chainRuns_last (front : List ProofOperator) (op : ProofOperator)
    (keyPath : List Bytes) (current out : List Bytes)
    (h : chainRuns (front ++ [op]) keyPath current out) :
    ∃ mid val, op.Run mid = .returned val none ∧ val.getD [] = out := by
  induction front generalizing keyPath current with
  | nil =>
    cases keyPath with
    | nil => simp [chainRuns] at h
    | cons seg segs =>
      simp only [List.nil_append, chainRuns] at h
      obtain ⟨_, val, hrun, hout⟩ := h
      exact ⟨current, val, hrun, hout⟩
  | cons op2 rest ih =>
    cases keyPath with
    | nil => simp [chainRuns] at h
    | cons seg segs =>
      simp only [List.cons_append, chainRuns] at h
      obtain ⟨_, val, _, hrest⟩ := h
      exact ih segs (val.getD []) hrest

/-- C14: chain verification with the multi-store stage. For a chain whose last operator
is a `MultiStoreProofOp`, `verifyValue` succeeds if and only if the chain runs from
`[leafValue]` to `[expectedRoot]` along the key path (every key is its segment, every
`Run` returns without error on the output of the stage before, the last output is
`[expectedRoot]`); then the expected root is the root of the proof of the last
operator, and the verification against any other root fails with the root-mismatch
error. -/
theorem verifyValue_multistore (ciHash : commitInfo → Bytes) (cdc : Codec)
    (front : List ProofOperator) (msop : MultiStoreProofOp) (expectedRoot : Bytes)
    (keyPath : List Bytes) (leafValue : Bytes) :
    (verifyValue (front ++ [msop.toProofOperator ciHash cdc]) expectedRoot keyPath leafValue
        = .success
      ↔ chainRuns (front ++ [msop.toProofOperator ciHash cdc]) keyPath [leafValue]
          [expectedRoot])
    ∧ (verifyValue (front ++ [msop.toProofOperator ciHash cdc]) expectedRoot keyPath
          leafValue = .success →
        ∃ proof, msop.Proof = some proof ∧ expectedRoot = proof.ComputeRootHash ciHash)
    ∧ (verifyValue (front ++ [msop.toProofOperator ciHash cdc]) expectedRoot keyPath
          leafValue = .success →
        ∀ root2 : Bytes, root2 ≠ expectedRoot →
          verifyValue (front ++ [msop.toProofOperator ciHash cdc]) root2 keyPath leafValue
            = .failure (.RootMismatchError root2 [expectedRoot])) := by
  refine ⟨loop_success_iff _ _ _ _, ?_, ?_⟩
  · intro h
    have hruns := (loop_success_iff _ _ _ _).mp h
    obtain ⟨mid, val, hrun, hout⟩ := chainRuns_last _ _ _ _ _ hruns
    change msop.Run ciHash mid = .returned val none at hrun
    obtain ⟨proof, hproof, hval⟩ := Run_value_of_no_error ciHash msop mid val hrun
    refine ⟨proof, hproof, ?_⟩
    rw [hval] at hout
    simpa using hout.symm
  · intro h root2 hne
    exact loop_other_root _ _ _ _ _ h hne

/-- C14, on a chain of two stages: a sample operator that makes the commit hash
`[1, 2]` of `bank` from the leaf value `[2]`, then the multi-store operator. -/
theorem verifyValue_multistore_witness :
    verifyValue
        ([sampleValueOp [1]]
          ++ [(NewMultiStoreProofOp (lit "bank") (some bankAccProof)).toProofOperator
                sampleHash sampleCodec])
        (bankAccProof.ComputeRootHash sampleHash) [[1], lit "bank"] [2] = .success
    ∧ (∃ proof, (NewMultiStoreProofOp (lit "bank") (some bankAccProof)).Proof = some proof
        ∧ bankAccProof.ComputeRootHash sampleHash = proof.ComputeRootHash sampleHash)
    ∧ ([5] : Bytes) ≠ bankAccProof.ComputeRootHash sampleHash
    ∧ verifyValue
        ([sampleValueOp [1]]
          ++ [(NewMultiStoreProofOp (lit "bank") (some bankAccProof)).toProofOperator
                sampleHash sampleCodec])
        [5] [[1], lit "bank"] [2]
        = .failure (.RootMismatchError [5] [bankAccProof.ComputeRootHash sampleHash]) :=
  ⟨by decide,
   (verifyValue_multistore sampleHash sampleCodec [sampleValueOp [1]]
      (NewMultiStoreProofOp (lit "bank") (some bankAccProof))
      (bankAccProof.ComputeRootHash sampleHash) [[1], lit "bank"] [2]).2.1 (by decide),
   by decide,
   (verifyValue_multistore sampleHash sampleCodec [sampleValueOp [1]]
      (NewMultiStoreProofOp (lit "bank") (some bankAccProof))
      (bankAccProof.ComputeRootHash sampleHash) [[1], lit "bank"] [2]).2.2 (by decide)
      [5] (by decide)⟩

end store

/-! ## The message of the not-found error, the registry, and the implicit claims -/

namespace store

theorem Sprintf_keyNotFound (key : Bytes) :
    Sprintf (lit "key %v not found in multistore proof") [.bytes key]
      = lit "key " ++ fmtBytesV key ++ lit " not found in multistore proof" := by
  have h1 : lit "key %v not found in multistore proof"
      = lit "key " ++ ([37, 118] ++ lit " not found in multistore proof") := by decide
  have h2 : lit "key " = [107, 101, 121, 32] := by decide
  have h3 : lit " not found in multistore proof"
      = [32, 110, 111, 116, 32, 102, 111, 117, 110, 100, 32, 105, 110, 32, 109, 117, 108,
          116, 105, 115, 116, 111, 114, 101, 32, 112, 114, 111, 111, 102] := by decide
  rw [h1, h2, h3]
  simp [Sprintf, FmtArg.fmtV, fmtExtras]

/-- C15 as stated fails: with the key `missing`, which is the name of no store info of
the sample proof, the message of the error of `Run` is
`key [109 105 115 115 105 110 103] not found in multistore proof`; the text `missing`
does not occur in it. -/
theorem Run_not_found_message_counterexample :
    (∀ si ∈ bankAccProof.StoreInfos, si.Name ≠ string (lit "missing"))
    ∧ (NewMultiStoreProofOp (lit "missing") (some bankAccProof)).Run sampleHash [[7]]
        = .returned none
            (some (cmn.NewError (lit "key %v not found in multistore proof")
              [.bytes (lit "missing")]))
    ∧ Sprintf (lit "key %v not found in multistore proof") [.bytes (lit "missing")]
        = lit "key [109 105 115 115 105 110 103] not found in multistore proof"
    ∧ ¬ (lit "missing"
          <:+: Sprintf (lit "key %v not found in multistore proof")
                [.bytes (lit "missing")]) := by
  decide

/-- C15, amended: the not-found error names the key by its bytes. For every operator
whose key is the name of no store info and every single input, the message of the error
of `Run` is `key `, then the key as `%v` prints a byte slice (the decimal values of its
bytes, separated by spaces, in square brackets), then ` not found in multistore proof`;
so it contains that rendering of the key. -/
theorem Run_not_found_message (ciHash : commitInfo → Bytes) (key v : Bytes)
    (proof : MultiStoreProof) (h : ∀ si ∈ proof.StoreInfos, si.Name ≠ string key) :
    (NewMultiStoreProofOp key (some proof)).Run ciHash [v]
        = .returned none
            (some (cmn.NewError (lit "key %v not found in multistore proof") [.bytes key]))
    ∧ Sprintf (lit "key %v not found in multistore proof") [.bytes key]
        = lit "key " ++ fmtBytesV key ++ lit " not found in multistore proof"
    ∧ fmtBytesV key
        <:+: Sprintf (lit "key %v not found in multistore proof") [.bytes key] := by
  refine ⟨?_, Sprintf_keyNotFound key, ?_⟩
  · have hnone : proof.StoreInfos.find? (fun x => decide (x.Name = string key)) = none := by
      rw [List.find?_eq_none]
      intro si hsi
      simpa using h si hsi
    simp only [NewMultiStoreProofOp]
    rw [Run_singleton, loop_eq_find, hnone]
    rfl
  · rw [Sprintf_keyNotFound]
    exact ⟨lit "key ", lit " not found in multistore proof", rfl⟩

/-- C15, amended, on the key `missing` and the sample proof. -/
theorem Run_not_found_message_witness :
    (∀ si ∈ bankAccProof.StoreInfos, si.Name ≠ string (lit "missing"))
    ∧ Sprintf (lit "key %v not found in multistore proof") [.bytes (lit "missing")]
        = lit "key " ++ fmtBytesV (lit "missing") ++ lit " not found in multistore proof"
    ∧ fmtBytesV (lit "missing") = lit "[109 105 115 115 105 110 103]" :=
  ⟨by decide,
   (Run_not_found_message sampleHash (lit "missing") [7] bankAccProof (by decide)).2.1,
   by decide⟩

/-- C16: the registry built by `DefaultProofRuntime` has a decoder for each sub-store
proof operator kind: the simple-value tag, the IAVL value tag and the IAVL absence tag
are each mapped to their own decoder, and decoding an envelope with one of these tags
calls that decoder. -/
theorem DefaultProofRuntime_registry (lib : LibDecoders) (k d : Bytes) :
    (DefaultProofRuntime lib).decoders merkle.ProofOpSimpleValue
        = some lib.SimpleValueOpDecoder
    ∧ (DefaultProofRuntime lib).decoders iavl.ProofOpIAVLValue
        = some lib.IAVLValueOpDecoder
    ∧ (DefaultProofRuntime lib).decoders iavl.ProofOpIAVLAbsence
        = some lib.IAVLAbsenceOpDecoder
    ∧ (DefaultProofRuntime lib).Decode { Typ := merkle.ProofOpSimpleValue, Key := k, Data := d }
        = lib.SimpleValueOpDecoder { Typ := merkle.ProofOpSimpleValue, Key := k, Data := d }
    ∧ (DefaultProofRuntime lib).Decode { Typ := iavl.ProofOpIAVLValue, Key := k, Data := d }
        = lib.IAVLValueOpDecoder { Typ := iavl.ProofOpIAVLValue, Key := k, Data := d }
    ∧ (DefaultProofRuntime lib).Decode { Typ := iavl.ProofOpIAVLAbsence, Key := k, Data := d }
        = lib.IAVLAbsenceOpDecoder { Typ := iavl.ProofOpIAVLAbsence, Key := k, Data := d } := by
  have h12 : merkle.ProofOpSimpleValue ≠ iavl.ProofOpIAVLValue := by decide
  have h13 : merkle.ProofOpSimpleValue ≠ iavl.ProofOpIAVLAbsence := by decide
  have h23 : iavl.ProofOpIAVLValue ≠ iavl.ProofOpIAVLAbsence := by decide
  have e1 : (DefaultProofRuntime lib).decoders merkle.ProofOpSimpleValue
      = some lib.SimpleValueOpDecoder := by
    simp [DefaultProofRuntime, merkle.ProofRuntime.RegisterOpDecoder, h12, h13]
  have e2 : (DefaultProofRuntime lib).decoders iavl.ProofOpIAVLValue
      = some lib.IAVLValueOpDecoder := by
    simp [DefaultProofRuntime, merkle.ProofRuntime.RegisterOpDecoder, h23]
  have e3 : (DefaultProofRuntime lib).decoders iavl.ProofOpIAVLAbsence
      = some lib.IAVLAbsenceOpDecoder := by
    simp [DefaultProofRuntime, merkle.ProofRuntime.RegisterOpDecoder]
  refine ⟨e1, e2, e3, ?_, ?_, ?_⟩
  · simp only [merkle.ProofRuntime.Decode, e1]
  · simp only [merkle.ProofRuntime.Decode, e2]
  · simp only [merkle.ProofRuntime.Decode, e3]

/-- The search stops at the first store info with the name. -/
theorem find_append_first (front back : List storeInfo) (si : storeInfo) (name : GoString)
    (hfront : ∀ x ∈ front, x.Name ≠ name) (hname : si.Name = name) :
    (front ++ si :: back).find? (fun x => decide (x.Name = name)) = some si := by
  induction front with
  | nil => simp [List.find?, hname]
  | cons x rest ih =>
    have hx : x.Name ≠ name := hfront x (List.mem_cons_self _ _)
    have hrest : ∀ y ∈ rest, y.Name ≠ name :=
      fun y hy => hfront y (List.mem_cons_of_mem _ hy)
    simp [List.find?, hx, ih hrest]

/-- C17: the first match decides. When `si` is the first store info named
`string(key)` (no store info before it has the name, whatever comes after it),
`Run([v])` succeeds if and only if `v` is the commit hash of `si`, and fails with the
hash mismatch otherwise, even when a later store info with the same name has commit
hash `v`; and there are a list with a name twice and a permutation of it such that
`Run` succeeds on one and fails on the other. -/
theorem Run_first_match (ciHash : commitInfo → Bytes) (key v : Bytes)
    (front back : List storeInfo) (si : storeInfo)
    (hfront : ∀ x ∈ front, x.Name ≠ string key) (hname : si.Name = string key) :
    ((NewMultiStoreProofOp key (some (NewMultiStoreProof (front ++ si :: back)))).Run
          ciHash [v]
        = .returned
            (some [(NewMultiStoreProof (front ++ si :: back)).ComputeRootHash ciHash]) none
      ↔ v = si.Core.CommitID.Hash)
    ∧ (v ≠ si.Core.CommitID.Hash →
        (NewMultiStoreProofOp key (some (NewMultiStoreProof (front ++ si :: back)))).Run
            ciHash [v]
          = .returned none (some (errHashMismatch si.Name si.Core.CommitID.Hash v)))
    ∧ (∃ (p1 p2 : MultiStoreProof) (k w : Bytes),
        p1.StoreInfos.Perm p2.StoreInfos
        ∧ mkStoreInfo (string k) w ∈ p2.StoreInfos
        ∧ (NewMultiStoreProofOp k (some p1)).Run ciHash [w]
            = .returned (some [p1.ComputeRootHash ciHash]) none
        ∧ ∃ e, (NewMultiStoreProofOp k (some p2)).Run ciHash [w]
            = .returned none (some e)) := by
  have hfind := find_append_first front back si (string key) hfront hname
  have hrun : (NewMultiStoreProofOp key (some (NewMultiStoreProof (front ++ si :: back)))).Run
        ciHash [v]
      = if v = si.Core.CommitID.Hash then
          .returned
            (some [(NewMultiStoreProof (front ++ si :: back)).ComputeRootHash ciHash]) none
        else .returned none (some (errHashMismatch si.Name si.Core.CommitID.Hash v)) := by
    simp only [NewMultiStoreProofOp]
    rw [Run_singleton, loop_eq_find]
    simp only [NewMultiStoreProof]
    rw [hfind]
  refine ⟨?_, ?_, ?_⟩
  · rw [hrun]
    by_cases hv : v = si.Core.CommitID.Hash <;> simp [hv]
  · intro hv
    rw [hrun]
    simp [hv]
  · refine ⟨twiceAProof, twiceAProofRev, lit "a", [1], List.Perm.swap _ _ _, ?_, ?_, ?_⟩
    · decide
    · simp only [NewMultiStoreProofOp]
      rw [Run_singleton, loop_eq_find]
      rfl
    · refine ⟨errHashMismatch (lit "a") [2] [1], ?_⟩
      simp only [NewMultiStoreProofOp]
      rw [Run_singleton, loop_eq_find]
      rfl

/-- C17, on the proof with the name `a` twice: the first entry has hash `[2]`, a
later one has hash `[1]`, and `Run([[1]])` fails with the hash mismatch. -/
theorem Run_first_match_witness :
    (∀ x ∈ ([] : List storeInfo), x.Name ≠ string (lit "a"))
    ∧ (mkStoreInfo (lit "a") [2]).Name = string (lit "a")
    ∧ ([1] : Bytes) ≠ (mkStoreInfo (lit "a") [2]).Core.CommitID.Hash
    ∧ (NewMultiStoreProofOp (lit "a")
          (some (NewMultiStoreProof ([] ++ mkStoreInfo (lit "a") [2]
            :: [mkStoreInfo (lit "a") [1]])))).Run sampleHash [[1]]
        = .returned none
            (some (errHashMismatch (mkStoreInfo (lit "a") [2]).Name
              (mkStoreInfo (lit "a") [2]).Core.CommitID.Hash [1])) :=
  ⟨by decide, by decide, by decide,
   (Run_first_match sampleHash (lit "a") [1] [] [mkStoreInfo (lit "a") [1]]
      (mkStoreInfo (lit "a") [2]) (by decide) (by decide)).2.1 (by decide)⟩

end store

namespace store

/-- C18: the decoded key comes from the envelope. For every envelope with type
`multistore` whose data decodes to a payload with proof `p`, `MultiStoreProofOpDecoder`
returns the operator with the key of the envelope and the proof `p`, whatever key the
payload carries; when the data fails to decode, it returns an error and no operator. -/
theorem Decoder_key_from_envelope (cdc : Codec) (pop : merkle.ProofOp)
    (htyp : pop.Typ = lit "multistore") :
    (∀ op : MultiStoreProofOp, cdc.UnmarshalBinaryLengthPrefixed pop.Data = .ok op →
        MultiStoreProofOpDecoder cdc pop
          = .returned (some { key := pop.Key, Proof := op.Proof }) none)
    ∧ (∀ err : cmn.Error, cdc.UnmarshalBinaryLengthPrefixed pop.Data = .error err →
        MultiStoreProofOpDecoder cdc pop
          = .returned none
              (some (cmn.ErrorWrap err (lit "decoding ProofOp.Data into MultiStoreProofOp")))) := by
  constructor
  · intro op hdec
    simp [MultiStoreProofOpDecoder, ProofOpMultiStoreProof, htyp, hdec,
      NewMultiStoreProofOp]
  · intro err hdec
    simp [MultiStoreProofOpDecoder, ProofOpMultiStoreProof, htyp, hdec]

/-- C18, on an envelope with key `bank`: with a codec whose payload carries the key
`payload`, the decoded operator has the key `bank`; with the sample codec and data that
is no encoding, there is an error and no operator. -/
theorem Decoder_key_from_envelope_witness :
    MultiStoreProofOpDecoder sampleKeyedCodec
        { Typ := lit "multistore", Key := lit "bank", Data := [] }
      = .returned (some { key := lit "bank", Proof := some bankAccProof }) none
    ∧ MultiStoreProofOpDecoder sampleCodec
        { Typ := lit "multistore", Key := lit "bank", Data := [9] }
      = .returned none
          (some (cmn.ErrorWrap (.foreign (lit "unknown mark"))
            (lit "decoding ProofOp.Data into MultiStoreProofOp"))) :=
  ⟨(Decoder_key_from_envelope sampleKeyedCodec
      { Typ := lit "multistore", Key := lit "bank", Data := [] } rfl).1
      { key := lit "payload", Proof := some bankAccProof } rfl,
   (Decoder_key_from_envelope sampleCodec
      { Typ := lit "multistore", Key := lit "bank", Data := [9] } rfl).2
      (.foreign (lit "unknown mark")) rfl⟩

/-- C19: `Run` is total on operators that carry a proof. For every operator whose
`Proof` is present and every argument list, `Run` does not panic and returns either an
output and no error, or an error and no output; for every operator, `Run` panics only
on a single argument and a `nil` proof, so the read of `args[0]` is never out of range. -/
theorem Run_total (ciHash : commitInfo → Bytes) (op : MultiStoreProofOp)
    (args : List Bytes) (proof : MultiStoreProof) (hproof : op.Proof = some proof) :
    ((∃ out, op.Run ciHash args = .returned (some out) none)
      ∨ (∃ e, op.Run ciHash args = .returned none (some e)))
    ∧ op.Run ciHash args ≠ .panicked
    ∧ (∀ op2 : MultiStoreProofOp,
        op2.Run ciHash args = .panicked ↔ (args.length = 1 ∧ op2.Proof = none)) := by
  have hpanic : ∀ op2 : MultiStoreProofOp,
      op2.Run ciHash args = .panicked ↔ (args.length = 1 ∧ op2.Proof = none) := by
    intro op2
    rcases Run_cases ciHash op2 args with
      ⟨hlen, hr⟩ | ⟨v, ha, hp, hr⟩ | ⟨_, _, _, hp, _, hr⟩ | ⟨_, _, _, _, hp, _, _, hr⟩
        | ⟨_, _, _, _, hp, _, _, hr⟩
    · rw [hr]
      constructor
      · intro h; simp at h
      · intro h; exact absurd h.1 hlen
    · rw [hr]
      exact ⟨fun _ => ⟨by simp [ha], hp⟩, fun _ => rfl⟩
    · rw [hr]
      constructor
      · intro h; simp at h
      · intro h; rw [hp] at h; simp at h
    · rw [hr]
      constructor
      · intro h; simp at h
      · intro h; rw [hp] at h; simp at h
    · rw [hr]
      constructor
      · intro h; simp at h
      · intro h; rw [hp] at h; simp at h
  have hnot : op.Run ciHash args ≠ .panicked := by
    intro h
    have := ((hpanic op).mp h).2
    rw [hproof] at this
    simp at this
  refine ⟨?_, hnot, hpanic⟩
  rcases Run_cases ciHash op args with
    ⟨_, hr⟩ | ⟨_, _, _, hr⟩ | ⟨_, _, _, _, _, hr⟩ | ⟨_, _, _, _, _, _, _, hr⟩
      | ⟨_, _, _, _, _, _, _, hr⟩
  · exact Or.inr ⟨_, hr⟩
  · exact absurd hr hnot
  · exact Or.inr ⟨_, hr⟩
  · exact Or.inl ⟨_, hr⟩
  · exact Or.inr ⟨_, hr⟩

/-- C19, on the sample proof: the empty argument list and the list whose single
element is empty. -/
theorem Run_total_witness :
    (NewMultiStoreProofOp (lit "bank") (some bankAccProof)).Proof = some bankAccProof
    ∧ (NewMultiStoreProofOp (lit "bank") (some bankAccProof)).Run sampleHash []
        ≠ .panicked
    ∧ (NewMultiStoreProofOp (lit "bank") (some bankAccProof)).Run sampleHash [[]]
        ≠ .panicked
    ∧ (NewMultiStoreProofOp (lit "bank") (some bankAccProof)).Run sampleHash [[]]
        = .returned none (some (errHashMismatch (lit "bank") [1, 2] [])) :=
  ⟨rfl,
   (Run_total sampleHash (NewMultiStoreProofOp (lit "bank") (some bankAccProof)) []
      bankAccProof rfl).2.1,
   (Run_total sampleHash (NewMultiStoreProofOp (lit "bank") (some bankAccProof)) [[]]
      bankAccProof rfl).2.1,
   by decide⟩

end store
